import Mathlib

/-!
Verification of the expense data-access and aggregation layer of
`expense-tracker-nicegui` (`app/expense_service.py`, `app/models.py`).

Python `Decimal` amounts are embedded as exact rationals (`ℚ`): every decimal
of scale 2 embeds exactly, and `Decimal` addition at these magnitudes is exact,
so value-level equality and sums coincide with rational equality and sums.
Calendar dates are embedded as integers (any ordinal encoding of dates works,
only their order matters), timestamps as naturals.

The persistence gateway (`app/database.py`, the SQL table behind the service)
is modelled from the spec: a `Store` holds the rows of the `expenses` table in
insertion order together with the autoincrement counter for the primary key.
`create_expense`, `get_all_expenses`, `get_expense_by_id`, `delete_expense`,
`get_total_expenses` and `get_expenses_by_category` below follow the Python
service functions line by line over that store.
-/

namespace ExpenseTracker

/-- A row of the `expenses` table (`app/models.py`, class `Expense`):
`id` primary key, `amount : Decimal`, `description`, `expense_date : date`,
`category`, `created_at : datetime`. -/
structure Expense where
  id : Nat
  amount : ℚ
  description : String
  expense_date : Int
  category : String
  created_at : Nat
deriving DecidableEq, Repr

/-- The transient creation schema (`app/models.py`, class `ExpenseCreate`):
the `Expense` fields minus `id` and `created_at`. -/
structure ExpenseCreate where
  amount : ℚ
  description : String
  expense_date : Int
  category : String
deriving DecidableEq, Repr

/-- Modelled from the spec: the persistence gateway (`app/database.py` is not
in the sources; the spec describes it as owning the single `expenses` table
with insert-and-return-identity, get-by-identity, list-all-ordered-by and
delete-by-identity). `expenses` is the table contents in insertion order,
`nextId` the autoincrement counter for the primary key. -/
structure Store where
  expenses : List Expense
  nextId : Nat
deriving DecidableEq, Repr

/-- The empty store: no rows, identities issued from 1 (SQL autoincrement). -/
def emptyStore : Store := ⟨[], 1⟩

/-- Python `create_expense` (`app/expense_service.py` lines 8-20): builds an
`Expense` from the `ExpenseCreate` data, lets the gateway assign the identity
and stamps `created_at` with the current clock reading (`datetime.utcnow`),
persists it, and returns the populated record. The clock reading is an
explicit argument `now`. -/
def create_expense (now : Nat) (d : ExpenseCreate) (s : Store) : Expense × Store :=
  let e : Expense :=
    { id := s.nextId
      amount := d.amount
      description := d.description
      expense_date := d.expense_date
      category := d.category
      created_at := now }
  (e, ⟨s.expenses ++ [e], s.nextId + 1⟩)

/-- The ordering used by `get_all_expenses`: `order_by(desc(expense_date))`,
most recent date first. -/
def dateDesc (a b : Expense) : Prop := b.expense_date ≤ a.expense_date

instance : DecidableRel dateDesc := fun a b =>
  inferInstanceAs (Decidable (b.expense_date ≤ a.expense_date))

instance : IsTotal Expense dateDesc :=
  ⟨fun a b => (Int.le_total b.expense_date a.expense_date).imp (fun h => h) (fun h => h)⟩

instance : IsTrans Expense dateDesc :=
  ⟨fun _ _ _ hab hbc => le_trans hbc hab⟩

/-- Python `get_all_expenses` (`app/expense_service.py` lines 23-27):
`select(Expense).order_by(desc(Expense.expense_date))` — all rows sorted by
`expense_date` descending (the tie-break among equal dates is unspecified by
SQL; any sort realises the contract). -/
def get_all_expenses (s : Store) : List Expense :=
  List.insertionSort dateDesc s.expenses

/-- Python `get_expense_by_id` (`app/expense_service.py` lines 30-33):
`session.get(Expense, expense_id)` — the row with that primary key, or
`None`. -/
def get_expense_by_id (i : Nat) (s : Store) : Option Expense :=
  s.expenses.find? (fun e => e.id == i)

/-- Python `delete_expense` (`app/expense_service.py` lines 36-44): looks the row up
by primary key; if absent returns `False`, otherwise deletes that row and
returns `True`. -/
def delete_expense (i : Nat) (s : Store) : Bool × Store :=
  match s.expenses.find? (fun e => e.id == i) with
  | none => (false, s)
  | some _ => (true, ⟨s.expenses.eraseP (fun e => e.id == i), s.nextId⟩)

/-- Python `get_total_expenses` (`app/expense_service.py` lines 47-50):
`sum((expense.amount for expense in expenses), Decimal("0"))` over
`get_all_expenses()` — a left fold of exact decimal addition from zero. -/
def get_total_expenses (s : Store) : ℚ :=
  ((get_all_expenses s).map Expense.amount).foldl (· + ·) 0

/-- One step of the `get_expenses_by_category` loop body on the insertion-order
dictionary: `if category not in d: d[category] = Decimal("0")` followed by
`d[category] += amount`. Absent keys are appended at the end (Python dicts
keep first-insertion key order); `0 + v` is written `v`. -/
def updateCategory : List (String × ℚ) → String → ℚ → List (String × ℚ)
  | [], k, v => [(k, v)]
  | (k₁, v₁) :: t, k, v =>
      if k₁ = k then (k₁, v₁ + v) :: t else (k₁, v₁) :: updateCategory t k v

/-- The loop body applied to one record: `category_totals` updated with
`expense.category` and `expense.amount`. -/
def categoryStep (acc : List (String × ℚ)) (e : Expense) : List (String × ℚ) :=
  updateCategory acc e.category e.amount

/-- Python `get_expenses_by_category` (`app/expense_service.py` lines 53-61):
folds the loop body over `get_all_expenses()`, building the category → total
mapping as an insertion-ordered association list (a Python dict). -/
def get_expenses_by_category (s : Store) : List (String × ℚ) :=
  (get_all_expenses s).foldl categoryStep []

/-- Dictionary lookup `d[c]` on the association list representing the dict. -/
def lookupCategory : String → List (String × ℚ) → Option ℚ
  | _, [] => none
  | k, (k₁, v₁) :: t => if k₁ = k then some v₁ else lookupCategory k t

/-- Sum of the `amount` field over a list of records. -/
def amountSum (l : List Expense) : ℚ := (l.map Expense.amount).sum

/-- Sum of the `amount` field over the records of one exact category. -/
def catSum (c : String) (l : List Expense) : ℚ :=
  amountSum (l.filter (fun e => e.category = c))

/-- Well-formedness of a store, maintained by the gateway: primary keys are
pairwise distinct and below the autoincrement counter. -/
def Store.WF (s : Store) : Prop :=
  (s.expenses.map Expense.id).Nodup ∧ ∀ e ∈ s.expenses, e.id < s.nextId

/-- The operations of the service layer, as invoked by the UI; `create`
carries the clock reading `datetime.utcnow` returns at that call. -/
inductive Op where
  | create (now : Nat) (d : ExpenseCreate)
  | getAll
  | get (i : Nat)
  | delete (i : Nat)
  | total
  | byCategory
deriving DecidableEq, Repr

/-- Effect of one operation on the store (read-only operations leave it
unchanged). -/
def applyOp : Op → Store → Store
  | .create now d, s => (create_expense now d s).2
  | .delete i, s => (delete_expense i s).2
  | _, s => s

/-- Effect of a sequence of operations, first operation first. -/
def applyOps (ops : List Op) (s : Store) : Store :=
  ops.foldl (fun s op => applyOp op s) s

/-- The clock readings of the `create` operations of a trace, in order. -/
def opTimes : List Op → List Nat
  | [] => []
  | .create now _ :: rest => now :: opTimes rest
  | _ :: rest => opTimes rest

/-- Run a sequence of `create` calls (each with its clock reading), returning
the records the calls returned, in order, and the final store. -/
def runCreates : List (Nat × ExpenseCreate) → Store → List Expense × Store
  | [], s => ([], s)
  | (t, d) :: rest, s =>
      let p := create_expense t d s
      let q := runCreates rest p.2
      (p.1 :: q.1, q.2)


/-! ### Helper lemmas -/

/-- Folding exact addition from zero computes the list sum. -/
lemma foldl_add_eq_sum (l : List ℚ) : l.foldl (· + ·) 0 = l.sum :=
  List.sum_eq_foldl.symm

/-- The sorted listing is a permutation of the stored rows. -/
lemma get_all_perm (s : Store) : (get_all_expenses s).Perm s.expenses :=
  List.perm_insertionSort dateDesc s.expenses

/-- The listing is sorted by `expense_date` descending. -/
lemma get_all_sorted (s : Store) : (get_all_expenses s).Sorted dateDesc :=
  List.sorted_insertionSort dateDesc s.expenses

/-- The total is the amount sum over the stored rows, in any order. -/
lemma get_total_eq (s : Store) : get_total_expenses s = amountSum s.expenses := by
  rw [get_total_expenses, foldl_add_eq_sum, amountSum]
  exact ((get_all_perm s).map Expense.amount).sum_eq

/-- Running a batch of creates appends the returned records to the table. -/
lemma runCreates_expenses : ∀ (l : List (Nat × ExpenseCreate)) (s : Store),
    (runCreates l s).2.expenses = s.expenses ++ (runCreates l s).1
  | [], s => by simp [runCreates]
  | (t, d) :: rest, s => by
    simp [runCreates, create_expense, runCreates_expenses rest]

/-- Updating a key of the dictionary adds to its value (inserting on absence). -/
lemma lookup_updateCategory_same (l : List (String × ℚ)) (k : String) (v : ℚ) :
    lookupCategory k (updateCategory l k v) =
      match lookupCategory k l with
      | some w => some (w + v)
      | none => some v := by
  induction l with
  | nil => simp [updateCategory, lookupCategory]
  | cons p t ih =>
    obtain ⟨k₁, v₁⟩ := p
    by_cases h : k₁ = k
    · simp [updateCategory, lookupCategory, h]
    · simp [updateCategory, lookupCategory, h, ih]

/-- Updating a key leaves every other key of the dictionary unchanged. -/
lemma lookup_updateCategory_ne (l : List (String × ℚ)) (k c : String) (v : ℚ)
    (h : c ≠ k) :
    lookupCategory c (updateCategory l k v) = lookupCategory c l := by
  have h₀ : ¬k = c := fun hh => h hh.symm
  induction l with
  | nil => simp [updateCategory, lookupCategory, h₀]
  | cons p t ih =>
    obtain ⟨k₁, v₁⟩ := p
    by_cases h₁ : k₁ = k
    · subst h₁
      simp [updateCategory, lookupCategory, h₀]
    · by_cases h₂ : k₁ = c
      · simp [updateCategory, lookupCategory, h₁, h₂, h]
      · simp [updateCategory, lookupCategory, h₁, h₂, ih]

/-- Per-category sum over a cons. -/
lemma catSum_cons (c : String) (e : Expense) (t : List Expense) :
    catSum c (e :: t) = if e.category = c then e.amount + catSum c t else catSum c t := by
  by_cases h : e.category = c <;> simp [catSum, amountSum, List.filter_cons, h]

/-- The dictionary built by the loop maps each category present in the
processed records to its per-category sum, extending whatever was already
accumulated, and omits categories that never occur. -/
lemma foldl_categoryStep_lookup :
    ∀ (l : List Expense) (acc : List (String × ℚ)) (c : String),
    lookupCategory c (l.foldl categoryStep acc) =
      match lookupCategory c acc with
      | some w => some (w + catSum c l)
      | none => if l.any (fun e => e.category = c) then some (catSum c l) else none
  | [], acc, c => by
    cases h : lookupCategory c acc <;> simp [h, catSum, amountSum]
  | e :: t, acc, c => by
    rw [List.foldl_cons, foldl_categoryStep_lookup t, catSum_cons]
    by_cases hc : e.category = c
    · subst hc
      rw [show categoryStep acc e = updateCategory acc e.category e.amount from rfl]
      rw [lookup_updateCategory_same]
      cases h : lookupCategory e.category acc <;> simp [h, add_assoc, List.any_cons]
    · rw [show categoryStep acc e = updateCategory acc e.category e.amount from rfl]
      rw [lookup_updateCategory_ne _ _ _ _ (fun hh => hc hh.symm)]
      cases h : lookupCategory c acc <;> simp [h, hc, List.any_cons]

/-- Updating one key raises the sum of the dictionary values by the added
amount. -/
lemma snd_sum_updateCategory : ∀ (l : List (String × ℚ)) (k : String) (v : ℚ),
    ((updateCategory l k v).map Prod.snd).sum = (l.map Prod.snd).sum + v
  | [], k, v => by simp [updateCategory]
  | (k₁, v₁) :: t, k, v => by
    by_cases h : k₁ = k
    · simp only [updateCategory, if_pos h, List.map_cons, List.sum_cons, add_assoc]
      ring
    · simp [updateCategory, h, snd_sum_updateCategory t, add_assoc]

/-- The dictionary values built by the loop sum to the amount sum of the
processed records. -/
lemma foldl_categoryStep_snd_sum : ∀ (l : List Expense) (acc : List (String × ℚ)),
    ((l.foldl categoryStep acc).map Prod.snd).sum = (acc.map Prod.snd).sum + amountSum l
  | [], acc => by simp [amountSum]
  | e :: t, acc => by
    rw [List.foldl_cons, foldl_categoryStep_snd_sum t,
      show categoryStep acc e = updateCategory acc e.category e.amount from rfl,
      snd_sum_updateCategory]
    simp [amountSum, add_assoc]

/-- Under distinct primary keys, the row with a given key is what the lookup
finds. -/
lemma find_eq_of_mem_of_nodup (l : List Expense) (i : Nat) (e : Expense)
    (hn : (l.map Expense.id).Nodup) (he : e ∈ l) (hid : e.id = i) :
    l.find? (fun x => x.id == i) = some e := by
  induction l with
  | nil => simp at he
  | cons a t ih =>
    rcases List.mem_cons.mp he with rfl | ht
    · simp [List.find?_cons, hid]
    · have hne : ¬a.id = i := by
        intro hh
        simp [List.nodup_cons] at hn
        exact hn.1 e ht (by rw [hid, ← hh])
      rw [List.find?_cons_of_neg _ (by simpa using hne)]
      exact ih (by simp [List.nodup_cons] at hn; exact hn.2) ht

/-- Under distinct primary keys, erasing by key equals filtering the key out. -/
lemma eraseP_eq_filter_of_nodup : ∀ (l : List Expense) (i : Nat),
    (l.map Expense.id).Nodup →
    l.eraseP (fun e => e.id == i) = l.filter (fun e => !(e.id == i))
  | [], _, _ => rfl
  | a :: t, i, hn => by
    have hn₂ : (t.map Expense.id).Nodup ∧ ∀ x ∈ t, ¬x.id = a.id := by
      simp [List.nodup_cons] at hn
      exact ⟨hn.2, hn.1⟩
    by_cases h : a.id = i
    · have ht : t.filter (fun e => !(e.id == i)) = t := by
        apply List.filter_eq_self.mpr
        intro x hx
        simp only [Bool.not_eq_eq_eq_not, Bool.not_true, beq_eq_false_iff_ne]
        intro hxi
        exact hn₂.2 x hx (by rw [hxi, h])
      simp [List.eraseP_cons, List.filter_cons, h, ht]
    · simp [List.eraseP_cons, List.filter_cons, h,
        eraseP_eq_filter_of_nodup t i hn₂.1]

/-- Deleting a present key succeeds and filters that key out of the table. -/
lemma delete_expense_present (s : Store) (i : Nat) (e : Expense)
    (hn : (s.expenses.map Expense.id).Nodup) (he : e ∈ s.expenses) (hid : e.id = i) :
    delete_expense i s =
      (true, ⟨s.expenses.filter (fun x => !(x.id == i)), s.nextId⟩) := by
  rw [delete_expense, find_eq_of_mem_of_nodup s.expenses i e hn he hid,
    eraseP_eq_filter_of_nodup s.expenses i hn]

/-- Deleting an absent key reports failure and keeps the store untouched. -/
lemma delete_expense_absent (s : Store) (i : Nat)
    (h : ∀ e ∈ s.expenses, e.id ≠ i) :
    delete_expense i s = (false, s) := by
  rw [delete_expense, List.find?_eq_none.mpr (by simpa using h)]

/-- Looking an absent key up yields `None`. -/
lemma get_by_id_absent (s : Store) (i : Nat)
    (h : ∀ e ∈ s.expenses, e.id ≠ i) :
    get_expense_by_id i s = none := by
  rw [get_expense_by_id, List.find?_eq_none.mpr (by simpa using h)]

/-- The empty store is well formed. -/
lemma WF_emptyStore : emptyStore.WF := by
  constructor <;> simp [emptyStore, Store.WF]

/-- Creation preserves well-formedness: the assigned key is fresh. -/
lemma WF_create (now : Nat) (d : ExpenseCreate) (s : Store) (h : s.WF) :
    ((create_expense now d s).2).WF := by
  obtain ⟨h₁, h₂⟩ := h
  constructor
  · simp only [create_expense, List.map_append, List.map_cons, List.map_nil]
    rw [List.nodup_append]
    refine ⟨h₁, List.nodup_singleton _, ?_⟩
    intro a ha hb
    simp at hb
    subst hb
    rcases List.mem_map.mp ha with ⟨e, he, hid⟩
    exact absurd hid (Nat.ne_of_lt (h₂ e he))
  · intro e he
    simp only [create_expense, List.mem_append, List.mem_singleton] at he
    rcases he with he | rfl
    · exact Nat.lt_succ_of_lt (h₂ e he)
    · exact Nat.lt_succ_self _

/-- Every service operation preserves well-formedness. -/
lemma WF_applyOp (op : Op) (s : Store) (h : s.WF) : (applyOp op s).WF := by
  cases op with
  | create now d => exact WF_create now d s h
  | delete i =>
    obtain ⟨h₁, h₂⟩ := h
    rw [applyOp, delete_expense]
    cases hf : s.expenses.find? (fun e => e.id == i) with
    | none => exact ⟨h₁, h₂⟩
    | some e =>
      refine ⟨?_, ?_⟩
      · exact h₁.sublist ((s.expenses.eraseP_sublist).map Expense.id)
      · intro x hx
        exact h₂ x ((s.expenses.eraseP_sublist).subset hx)
  | getAll => exact h
  | get i => exact h
  | total => exact h
  | byCategory => exact h

/-- Rows are immutable values: after any operation, each row of the table is
an unchanged pre-existing row or the one record that operation created. -/
lemma applyOp_mem (op : Op) (s : Store) (x : Expense)
    (hx : x ∈ (applyOp op s).expenses) :
    x ∈ s.expenses ∨ ∃ now d, op = Op.create now d ∧ x = (create_expense now d s).1 := by
  cases op with
  | create now d =>
    simp only [applyOp, create_expense, List.mem_append, List.mem_singleton] at hx
    rcases hx with hx | rfl
    · exact Or.inl hx
    · exact Or.inr ⟨now, d, rfl, rfl⟩
  | delete i =>
    left
    rw [applyOp, delete_expense] at hx
    cases hf : s.expenses.find? (fun e => e.id == i) with
    | none => rw [hf] at hx; exact hx
    | some e => rw [hf] at hx; exact (s.expenses.eraseP_sublist).subset hx
  | getAll => exact Or.inl hx
  | get i => exact Or.inl hx
  | total => exact Or.inl hx
  | byCategory => exact Or.inl hx

/-- If the clock readings of a trace are non-decreasing and every pre-existing
row predates them, the table stays ordered by `created_at` along insertion
order. -/
lemma applyOps_pairwise_created : ∀ (ops : List Op) (s : Store),
    (opTimes ops).Pairwise (· ≤ ·) →
    s.expenses.Pairwise (fun a b => a.created_at ≤ b.created_at) →
    (∀ e ∈ s.expenses, ∀ t ∈ opTimes ops, e.created_at ≤ t) →
    (applyOps ops s).expenses.Pairwise (fun a b => a.created_at ≤ b.created_at)
  | [], s, _, hp, _ => hp
  | op :: rest, s, hc, hp, hb => by
    rw [applyOps, List.foldl_cons]
    have key : (applyOp op s).expenses.Pairwise (fun a b => a.created_at ≤ b.created_at) ∧
        (∀ e ∈ (applyOp op s).expenses, ∀ t ∈ opTimes rest, e.created_at ≤ t) ∧
        (opTimes rest).Pairwise (· ≤ ·) := by
      cases op with
      | create now d =>
        have hc₂ := (List.pairwise_cons.mp (by simpa [opTimes] using hc))
        refine ⟨?_, ?_, hc₂.2⟩
        · simp only [applyOp, create_expense]
          rw [List.pairwise_append]
          refine ⟨hp, List.pairwise_singleton _ _, ?_⟩
          intro a ha b hb₂
          simp at hb₂
          subst hb₂
          exact hb a ha now (by simp [opTimes])
        · intro e he t ht
          rcases applyOp_mem _ _ _ he with he₂ | ⟨now₂, d₂, heq, rfl⟩
          · exact hb e he₂ t (by simp [opTimes]; exact Or.inr ht)
          · cases heq
            exact hc₂.1 t ht
      | delete i =>
        have hsub : (applyOp (Op.delete i) s).expenses.Sublist s.expenses := by
          rw [applyOp, delete_expense]
          cases hf : s.expenses.find? (fun e => e.id == i) with
          | none => exact List.Sublist.refl _
          | some e => exact s.expenses.eraseP_sublist
        exact ⟨hp.sublist hsub,
          fun e he t ht => hb e (hsub.subset he) t (by simpa [opTimes] using ht),
          by simpa [opTimes] using hc⟩
      | getAll =>
        exact ⟨hp, fun e he t ht => hb e he t (by simpa [opTimes] using ht),
          by simpa [opTimes] using hc⟩
      | get i =>
        exact ⟨hp, fun e he t ht => hb e he t (by simpa [opTimes] using ht),
          by simpa [opTimes] using hc⟩
      | total =>
        exact ⟨hp, fun e he t ht => hb e he t (by simpa [opTimes] using ht),
          by simpa [opTimes] using hc⟩
      | byCategory =>
        exact ⟨hp, fun e he t ht => hb e he t (by simpa [opTimes] using ht),
          by simpa [opTimes] using hc⟩
    exact applyOps_pairwise_created rest (applyOp op s) key.2.2 key.1 key.2.1


/-! ### Concrete fixtures (from `tests/test_expense_service.py`) -/

/-- Fixture: `ExpenseCreate(amount=Decimal("15.50"), description="Lunch", ...)`. -/
def lunchData : ExpenseCreate := ⟨15.50, "Lunch", 20240110, "Food"⟩

/-- Fixture: `ExpenseCreate(amount=Decimal("25.00"), description="Bus fare", ...)`. -/
def busFareData : ExpenseCreate := ⟨25.00, "Bus fare", 20240111, "Transport"⟩

/-- Fixture: `ExpenseCreate(amount=Decimal("8.75"), description="Coffee", ...)`. -/
def coffeeData : ExpenseCreate := ⟨8.75, "Coffee", 20240112, "Food"⟩

/-- Fixture: `ExpenseCreate(amount=Decimal("15.00"), description="Lunch", category="Food")`. -/
def foodLunchData : ExpenseCreate := ⟨15.00, "Lunch", 20240110, "Food"⟩

/-- Fixture: `ExpenseCreate(amount=Decimal("25.00"), description="Dinner", category="Food")`. -/
def foodDinnerData : ExpenseCreate := ⟨25.00, "Dinner", 20240111, "Food"⟩

/-- Fixture: `ExpenseCreate(amount=Decimal("30.00"), description="Bus pass", category="Transport")`. -/
def busPassData : ExpenseCreate := ⟨30.00, "Bus pass", 20240112, "Transport"⟩

/-- Fixture: `ExpenseCreate(amount=Decimal("12.50"), description="Coffee", category="Food")`. -/
def foodCoffeeData : ExpenseCreate := ⟨12.50, "Coffee", 20240113, "Food"⟩

/-- Fixture: `ExpenseCreate(amount=Decimal("0.01"), description="Penny expense", ...)`. -/
def pennyData : ExpenseCreate := ⟨0.01, "Penny expense", 20240115, "Test"⟩

/-- Fixture: `ExpenseCreate(amount=Decimal("9999.99"), description="Large expense", ...)`. -/
def largeData : ExpenseCreate := ⟨9999.99, "Large expense", 20240115, "Test"⟩

/-- Fixture: the store after the four creates of
`test_get_expenses_by_category_with_data`. -/
def categoryFixtureStore : Store :=
  (runCreates [(1, foodLunchData), (2, foodDinnerData), (3, busPassData),
    (4, foodCoffeeData)] emptyStore).2

/-- Fixture row with identity `1`, used to instantiate hypotheses. -/
def sampleExpense : Expense := ⟨1, 20, "Parking fee", 20240115, "Transport", 5⟩

/-- Fixture store holding exactly `sampleExpense`, next identity `2`. -/
def sampleStore : Store := ⟨[sampleExpense], 2⟩

/-! ### The claims -/

/-- C1: For every sequence of create calls starting from an empty store,
`listAll()` (`get_all_expenses`) returns exactly the multiset of created
records (a permutation: no record lost, none duplicated), sorted by
`expense_date` descending; on an empty store it returns the empty
sequence. -/
theorem listAll_returns_created_sorted :
    (∀ l : List (Nat × ExpenseCreate),
      (get_all_expenses (runCreates l emptyStore).2).Perm (runCreates l emptyStore).1 ∧
      (get_all_expenses (runCreates l emptyStore).2).Sorted dateDesc) ∧
    get_all_expenses emptyStore = [] := by
  refine ⟨fun l => ⟨?_, get_all_sorted _⟩, rfl⟩
  have h := get_all_perm (runCreates l emptyStore).2
  rw [runCreates_expenses l emptyStore] at h
  simpa [emptyStore] using h

/-- C2: `totalAmount()` (`get_total_expenses`) equals the exact decimal sum of
the `amount` field over all stored records, equals exact zero on the empty
store, and over amounts 15.50, 25.00 and 8.75 returns exactly 49.25. -/
theorem totalAmount_spec :
    (∀ s : Store, get_total_expenses s = amountSum s.expenses) ∧
    get_total_expenses emptyStore = 0 ∧
    get_total_expenses
        (runCreates [(1, lunchData), (2, busFareData), (3, coffeeData)] emptyStore).2
      = 49.25 := by
  refine ⟨get_total_eq, by simp [get_total_eq, amountSum, emptyStore], ?_⟩
  norm_num [get_total_expenses, get_all_expenses, runCreates, create_expense, emptyStore,
    lunchData, busFareData, coffeeData, List.insertionSort, List.orderedInsert, dateDesc]

/-- C3: `totalsByCategory()` (`get_expenses_by_category`) maps each category
string occurring in the store (compared exactly, case-sensitively) to the
exact decimal sum of the amounts bearing it, omits categories that do not
occur, is empty on the empty store, and on the Food/Transport fixture returns
exactly Food ↦ 52.50, Transport ↦ 30.00 with exactly 2 groups. -/
theorem totalsByCategory_spec :
    (∀ (s : Store) (c : String),
      lookupCategory c (get_expenses_by_category s) =
        if s.expenses.any (fun e => e.category = c) then some (catSum c s.expenses)
        else none) ∧
    get_expenses_by_category emptyStore = [] ∧
    get_expenses_by_category categoryFixtureStore = [("Food", 52.50), ("Transport", 30.00)] ∧
    (get_expenses_by_category categoryFixtureStore).length = 2 := by
  have hmain : ∀ (s : Store) (c : String),
      lookupCategory c (get_expenses_by_category s) =
        if s.expenses.any (fun e => e.category = c) then some (catSum c s.expenses)
        else none := by
    intro s c
    rw [get_expenses_by_category, foldl_categoryStep_lookup]
    have hperm := get_all_perm s
    have hany : (get_all_expenses s).any (fun e => e.category = c) =
        s.expenses.any (fun e => e.category = c) := by
      simp [List.any_eq, hperm.mem_iff]
    have hsum : catSum c (get_all_expenses s) = catSum c s.expenses := by
      rw [catSum, catSum, amountSum, amountSum]
      exact ((hperm.filter _).map _).sum_eq
    simp [lookupCategory, hany, hsum]
  have hfix : get_expenses_by_category categoryFixtureStore
      = [("Food", 52.50), ("Transport", 30.00)] := by
    norm_num [get_expenses_by_category, get_all_expenses, categoryFixtureStore, runCreates,
      create_expense, emptyStore, foodLunchData, foodDinnerData, busPassData, foodCoffeeData,
      List.insertionSort, List.orderedInsert, dateDesc, categoryStep, updateCategory]
  exact ⟨hmain, rfl, hfix, by rw [hfix]; rfl⟩

/-- C4: `deleteById` (`delete_expense`) on a present id returns true, removes
exactly the record with that id (the table becomes its filtering by the other
ids), and a subsequent `getById` on that id returns absent; on an absent id it
returns false and leaves the store completely unchanged. -/
theorem deleteById_spec : ∀ (s : Store) (i : Nat), s.WF →
    ((∀ e ∈ s.expenses, e.id ≠ i) → delete_expense i s = (false, s)) ∧
    (∀ e ∈ s.expenses, e.id = i →
      (delete_expense i s).1 = true ∧
      (delete_expense i s).2.expenses = s.expenses.filter (fun x => !(x.id == i)) ∧
      get_expense_by_id i (delete_expense i s).2 = none) := by
  intro s i hwf
  refine ⟨delete_expense_absent s i, fun e he hid => ?_⟩
  rw [delete_expense_present s i e hwf.1 he hid]
  refine ⟨rfl, rfl, ?_⟩
  apply get_by_id_absent
  intro x hx
  have := (List.mem_filter.mp hx).2
  simpa using this

/-- Witness for C4 on the fixture store: deleting id 1 succeeds and empties
it, deleting id 999 reports false and changes nothing. -/
theorem deleteById_spec_witness :
    (delete_expense 1 sampleStore).1 = true ∧
    get_expense_by_id 1 (delete_expense 1 sampleStore).2 = none ∧
    delete_expense 999 sampleStore = (false, sampleStore) := by
  have h := deleteById_spec sampleStore 1 ⟨by decide, by decide⟩
  have h₂ := h.2 sampleExpense (by simp [sampleStore]) rfl
  have h₃ := (deleteById_spec sampleStore 999 ⟨by decide, by decide⟩).1 ?_
  · exact ⟨h₂.1, h₂.2.2, h₃⟩
  · intro e he
    simp [sampleStore] at he
    subst he
    decide

/-- C5: `getById` (`get_expense_by_id`) returns the stored record whose
identity is the requested id when one exists, and returns `None` (a non-error
absent result) when no record has that identity. -/
theorem getById_spec : ∀ (s : Store) (i : Nat), s.WF →
    (∀ e ∈ s.expenses, e.id = i → get_expense_by_id i s = some e) ∧
    ((∀ e ∈ s.expenses, e.id ≠ i) → get_expense_by_id i s = none) := by
  intro s i hwf
  refine ⟨fun e he hid => ?_, get_by_id_absent s i⟩
  rw [get_expense_by_id, find_eq_of_mem_of_nodup s.expenses i e hwf.1 he hid]

/-- Witness for C5 on the fixture store: id 1 is found, id 999 is absent. -/
theorem getById_spec_witness :
    get_expense_by_id 1 sampleStore = some sampleExpense ∧
    get_expense_by_id 999 sampleStore = none := by
  refine ⟨(getById_spec sampleStore 1 ⟨by decide, by decide⟩).1 sampleExpense
      (by simp [sampleStore]) rfl,
    (getById_spec sampleStore 999 ⟨by decide, by decide⟩).2 ?_⟩
  intro e he
  simp [sampleStore] at he
  subst he
  decide

/-- C6: `create` assigns the next identity and the given creation timestamp,
persists the record (appending it to the table), and returns a fully
populated record whose `amount`, `description`, `expense_date` and `category`
equal the input; the identity is fresh (distinct from every stored id), and
creating the same data twice stores two records with distinct identities. -/
theorem create_spec : ∀ (s : Store) (d : ExpenseCreate) (now : Nat), s.WF →
    ((create_expense now d s).1.amount = d.amount ∧
     (create_expense now d s).1.description = d.description ∧
     (create_expense now d s).1.expense_date = d.expense_date ∧
     (create_expense now d s).1.category = d.category ∧
     (create_expense now d s).1.id = s.nextId ∧
     (create_expense now d s).1.created_at = now ∧
     (create_expense now d s).2.expenses = s.expenses ++ [(create_expense now d s).1]) ∧
    (∀ e ∈ s.expenses, e.id ≠ (create_expense now d s).1.id) ∧
    (∀ now₂ : Nat,
      (create_expense now₂ d (create_expense now d s).2).2.expenses =
        s.expenses ++ [(create_expense now d s).1,
          (create_expense now₂ d (create_expense now d s).2).1] ∧
      (create_expense now₂ d (create_expense now d s).2).1.id ≠
        (create_expense now d s).1.id) := by
  intro s d now hwf
  refine ⟨⟨rfl, rfl, rfl, rfl, rfl, rfl, rfl⟩, fun e he => Nat.ne_of_lt (hwf.2 e he), ?_⟩
  intro now₂
  exact ⟨by simp [create_expense], Nat.succ_ne_self s.nextId⟩

/-- Witness for C6 on the fixture store. -/
theorem create_spec_witness :
    (create_expense 7 lunchData sampleStore).1.amount = lunchData.amount ∧
    sampleExpense.id ≠ (create_expense 7 lunchData sampleStore).1.id ∧
    (create_expense 9 lunchData (create_expense 7 lunchData sampleStore).2).1.id ≠
      (create_expense 7 lunchData sampleStore).1.id := by
  have h := create_spec sampleStore lunchData 7 ⟨by decide, by decide⟩
  exact ⟨h.1.1, h.2.1 sampleExpense (by simp [sampleStore]), (h.2.2 9).2⟩

/-- C7: when the clock readings handed to successive creates are
non-decreasing (as `datetime.utcnow` is under a monotone wall clock), the
table is ordered by `created_at` along insertion order — each earlier-created
record has `created_at` less than or equal to each later one — and no
operation ever modifies a stored record: after any operation every row is an
unchanged pre-existing row or the single record that operation created. -/
theorem createdAt_monotone_immutable :
    (∀ ops : List Op, (opTimes ops).Pairwise (· ≤ ·) →
      (applyOps ops emptyStore).expenses.Pairwise
        (fun a b => a.created_at ≤ b.created_at)) ∧
    (∀ (op : Op) (s : Store) (x : Expense), x ∈ (applyOp op s).expenses →
      x ∈ s.expenses ∨ ∃ now d, op = Op.create now d ∧ x = (create_expense now d s).1) := by
  refine ⟨fun ops hc => applyOps_pairwise_created ops emptyStore hc ?_ ?_, applyOp_mem⟩
  · simp [emptyStore]
  · simp [emptyStore]

/-- Witness for C7: a two-create trace with times 3 ≤ 5, and a read-only
operation touching the fixture store. -/
theorem createdAt_monotone_immutable_witness :
    (applyOps [Op.create 3 lunchData, Op.create 5 busFareData] emptyStore).expenses.Pairwise
      (fun a b => a.created_at ≤ b.created_at) ∧
    (sampleExpense ∈ sampleStore.expenses ∨
      ∃ now d, Op.getAll = Op.create now d ∧
        sampleExpense = (create_expense now d sampleStore).1) := by
  refine ⟨createdAt_monotone_immutable.1 [Op.create 3 lunchData, Op.create 5 busFareData]
      (by decide),
    createdAt_monotone_immutable.2 Op.getAll sampleStore sampleExpense ?_⟩
  simp [applyOp, sampleStore]

/-- C8: on a present id, `deleteById` twice in immediate succession returns
true then false. -/
theorem deleteById_twice : ∀ (s : Store) (x : Nat) (e : Expense),
    s.WF → e ∈ s.expenses → e.id = x →
    (delete_expense x s).1 = true ∧
    (delete_expense x (delete_expense x s).2).1 = false := by
  intro s x e hwf he hid
  rw [delete_expense_present s x e hwf.1 he hid]
  refine ⟨rfl, ?_⟩
  have habs : ∀ y ∈ (⟨s.expenses.filter (fun z => !(z.id == x)), s.nextId⟩ : Store).expenses,
      y.id ≠ x := by
    intro y hy
    have := (List.mem_filter.mp hy).2
    simpa using this
  rw [delete_expense_absent _ _ habs]

/-- Witness for C8 on the fixture store. -/
theorem deleteById_twice_witness :
    (delete_expense 1 sampleStore).1 = true ∧
    (delete_expense 1 (delete_expense 1 sampleStore).2).1 = false :=
  deleteById_twice sampleStore 1 sampleExpense ⟨by decide, by decide⟩
    (by simp [sampleStore]) rfl

/-- C9: create-then-getById round-trips the amount with exact decimal
equality: records created with amounts 0.01 and 9999.99 are retrieved with
exactly those amounts. -/
theorem roundtrip_amount_exact :
    (get_expense_by_id (create_expense 1 pennyData emptyStore).1.id
        (create_expense 2 largeData (create_expense 1 pennyData emptyStore).2).2).map
      Expense.amount = some 0.01 ∧
    (get_expense_by_id (create_expense 2 largeData (create_expense 1 pennyData emptyStore).2).1.id
        (create_expense 2 largeData (create_expense 1 pennyData emptyStore).2).2).map
      Expense.amount = some 9999.99 := by
  constructor <;>
    norm_num [get_expense_by_id, create_expense, emptyStore, pennyData, largeData]

/-- C10: the two aggregations agree on every store state: `totalAmount()`
equals the exact decimal sum of the values of the mapping returned by
`totalsByCategory()`. -/
theorem totalAmount_eq_totalsByCategory_sum :
    ∀ s : Store, get_total_expenses s = ((get_expenses_by_category s).map Prod.snd).sum := by
  intro s
  rw [get_total_eq, get_expenses_by_category, foldl_categoryStep_snd_sum]
  simp only [List.map_nil, List.sum_nil, zero_add]
  rw [amountSum, amountSum]
  exact (((get_all_perm s).map Expense.amount).sum_eq).symm

end ExpenseTracker
